import Mathlib

/-!
Shallow embedding of the `vecdb-rs` vector database core:
scalar store with id allocation (`src/scalar.rs`), WAL persistence
(`src/persistence.rs`), the integer filter index (`src/filter/index.rs`),
the flat vector index and search-result normalization
(`src/index/flat.rs`, `src/index/mod.rs`) and the database façade
(`src/vecdb.rs`).  Byte-level values are `List Nat` (each entry one byte),
`u64` arithmetic is `Nat` arithmetic (the allocator's counters start at 0
and stay far below `2 ^ 64`; bounds appear as explicit hypotheses where a
byte round-trip needs them), and `f32` vector components are idealized as
exact integers: every claim below is structural (lengths, ordering,
pairing, state changes) and independent of float rounding.  `f64` payloads
inside JSON numbers are idealized as `ℚ` and never computed with.
-/

namespace VecDB

/-! ### Bytes and the two u64 byte orders -/

abbrev Bytes := List Nat

/-- `u64::to_be_bytes`: 8 bytes, most significant first. -/
def be64 (v : Nat) : Bytes :=
  [v / 2 ^ 56 % 256, v / 2 ^ 48 % 256, v / 2 ^ 40 % 256, v / 2 ^ 32 % 256,
   v / 2 ^ 24 % 256, v / 2 ^ 16 % 256, v / 2 ^ 8 % 256, v % 256]

/-- `u64::from_be_bytes` on an 8-byte buffer. -/
def u64FromBeBytes (bs : Bytes) : Nat :=
  bs.foldl (fun acc b => acc * 256 + b) 0

/-- `u64::to_le_bytes`: 8 bytes, least significant first. -/
def le64 (v : Nat) : Bytes := (be64 v).reverse

/-- `u64::from_le_bytes` on an 8-byte buffer. -/
def u64FromLeBytes (bs : Bytes) : Nat := u64FromBeBytes bs.reverse

theorem u64FromBeBytes_be64 (v : Nat) (h : v < 2 ^ 64) :
    u64FromBeBytes (be64 v) = v := by
  simp only [be64, u64FromBeBytes, List.foldl]
  omega

theorem u64FromLeBytes_le64 (v : Nat) (h : v < 2 ^ 64) :
    u64FromLeBytes (le64 v) = v := by
  simp only [le64, u64FromLeBytes, List.reverse_reverse]
  exact u64FromBeBytes_be64 v h

theorem be64_length (v : Nat) : (be64 v).length = 8 := rfl

/-! ### JSON values (`serde_json::Value`) -/

/-- `serde_json::Number`: an integer stored as `u64`, a negative integer
stored as `i64`, or a float (payload idealized as `ℚ`). -/
inductive JsonNum where
  | posInt (v : Nat)
  | negInt (v : Int)
  | float (q : ℚ)

def i64MaxNat : Nat := 2 ^ 63 - 1

/-- `serde_json::Number::as_i64`. -/
def JsonNum.asI64 : JsonNum → Option Int
  | .posInt v => if v ≤ i64MaxNat then some (v : Int) else none
  | .negInt v => some v
  | .float _ => none

inductive Json where
  | null
  | bool (b : Bool)
  | num (n : JsonNum)
  | str (s : String)
  | arr (xs : List Json)
  | obj (fields : List (String × Json))

/-- Whether a `serde_json::Value` matches the `Value::Number` arm. -/
def Json.isNum : Json → Bool
  | .num _ => true
  | _ => false

/-! ### Filter index (`src/filter/index.rs`) -/

/-- Roaring bitmap of u32 ids. -/
abbrev Bitmap := Finset Nat

/-- Inner `HashMap<i64, RoaringBitmap>` as an association list. -/
abbrev InnerMap := List (Int × Bitmap)

/-- `AttrLookupTable = HashMap<String, HashMap<i64, RoaringBitmap>>`. -/
abbrev AttrLookupTable := List (String × InnerMap)

def lookupInner (m : InnerMap) (value : Int) : Option Bitmap :=
  match m with
  | [] => none
  | (v, b) :: rest => if v = value then some b else lookupInner rest value

def lookupField (tbl : AttrLookupTable) (field : String) : Option InnerMap :=
  match tbl with
  | [] => none
  | (f, m) :: rest => if f = field then some m else lookupField rest field

def insertInner (m : InnerMap) (value : Int) (id32 : Nat) : InnerMap :=
  match m with
  | [] => [(value, {id32})]
  | (v, b) :: rest =>
    if v = value then (v, insert id32 b) :: rest
    else (v, b) :: insertInner rest value id32

inductive FilterOp where
  | equal
  | notEqual
deriving DecidableEq

structure IntFilterInput where
  field : String
  op : FilterOp
  target : Int

/-- `IntFilterIndex::upsert`: insert `id as u32` into the `(field, value)`
bitmap, creating intermediate maps as needed (`entry(..).or_default()`). -/
def filterUpsert (tbl : AttrLookupTable) (field : String) (value : Int) (id : Nat) :
    AttrLookupTable :=
  match tbl with
  | [] => [(field, [(value, {id % 2 ^ 32})])]
  | (f, m) :: rest =>
    if f = field then (f, insertInner m value (id % 2 ^ 32)) :: rest
    else (f, m) :: filterUpsert rest field value id

/-- `IntFilterIndex::apply`: compose one predicate into an accumulator. -/
def filterApply (tbl : AttrLookupTable) (input : IntFilterInput) (bitmap : Bitmap) :
    Bitmap :=
  if input.op = FilterOp.equal then
    match (lookupField tbl input.field).bind (fun m => lookupInner m input.target) with
    | none => bitmap
    | some cur => bitmap ∪ cur
  else if input.op = FilterOp.notEqual then
    match lookupField tbl input.field with
    | none => bitmap
    | some m =>
      m.foldl (fun acc p => if p.1 = input.target then acc else acc ∪ p.2) bitmap
  else bitmap

/-- Union of a list of bitmaps. -/
def unionList (l : List Bitmap) : Bitmap := l.foldl (fun a b => a ∪ b) ∅

theorem foldl_union_eq (l : List Bitmap) (a : Bitmap) :
    l.foldl (fun x b => x ∪ b) a = a ∪ unionList l := by
  induction l generalizing a with
  | nil => simp [unionList]
  | cons b rest ih =>
    simp only [List.foldl, unionList] at *
    rw [ih (a ∪ b), ih (∅ ∪ b)]
    rw [Finset.empty_union, Finset.union_assoc]

theorem foldl_union_filter_eq (m : InnerMap) (t : Int) (a : Bitmap) :
    m.foldl (fun acc p => if p.1 = t then acc else acc ∪ p.2) a =
      a ∪ unionList ((m.filter (fun p => p.1 ≠ t)).map (fun p => p.2)) := by
  induction m generalizing a with
  | nil => simp [unionList]
  | cons p rest ih =>
    by_cases hp : p.1 = t
    · rw [List.foldl_cons, if_pos hp, ih a]
      congr 2
      simp [List.filter_cons, hp]
    · rw [List.foldl_cons, if_neg hp, ih (a ∪ p.2)]
      have hf : (p :: rest).filter (fun q => decide (q.1 ≠ t)) =
          p :: rest.filter (fun q => decide (q.1 ≠ t)) := by
        simp [List.filter_cons, hp]
      rw [hf, List.map_cons]
      have hu : unionList (p.2 :: (rest.filter
            (fun q => decide (q.1 ≠ t))).map (fun q => q.2)) =
          p.2 ∪ unionList ((rest.filter
            (fun q => decide (q.1 ≠ t))).map (fun q => q.2)) := by
        simp only [unionList, List.foldl_cons, Finset.empty_union]
        exact foldl_union_eq _ _
      rw [hu, Finset.union_assoc]

/-- C3: `apply` of `Equal(field, t)` returns the accumulator unchanged when
`field` is unknown or has no entry for `t`, else the accumulator unioned with
`filter[field][t]`; `apply` of `NotEqual(field, t)` returns the accumulator
unchanged when `field` is unknown, else the accumulator unioned with the
union of `filter[field][v]` over all values `v ≠ t`. -/
theorem filterApply_spec (tbl : AttrLookupTable) (acc : Bitmap) (field : String)
    (t : Int) :
    ((lookupField tbl field = none →
        filterApply tbl ⟨field, .equal, t⟩ acc = acc) ∧
      (∀ m, lookupField tbl field = some m → lookupInner m t = none →
        filterApply tbl ⟨field, .equal, t⟩ acc = acc) ∧
      (∀ m b, lookupField tbl field = some m → lookupInner m t = some b →
        filterApply tbl ⟨field, .equal, t⟩ acc = acc ∪ b)) ∧
    ((lookupField tbl field = none →
        filterApply tbl ⟨field, .notEqual, t⟩ acc = acc) ∧
      (∀ m, lookupField tbl field = some m →
        filterApply tbl ⟨field, .notEqual, t⟩ acc =
          acc ∪ unionList ((m.filter (fun p => p.1 ≠ t)).map (fun p => p.2)))) := by
  refine ⟨⟨?_, ?_, ?_⟩, ?_, ?_⟩
  · intro h
    simp [filterApply, h]
  · intro m hm hi
    simp [filterApply, hm, hi]
  · intro m b hm hb
    simp [filterApply, hm, hb]
  · intro h
    simp [filterApply, h]
  · intro m hm
    simp only [filterApply, reduceCtorEq, if_false, if_pos rfl, hm]
    exact foldl_union_filter_eq m t acc

/-- Witness for C3 on a concrete filter table. -/
theorem filterApply_spec_witness :
    filterApply [("age", [((10 : Int), {1}), ((20 : Int), {2})])]
        ⟨"age", .notEqual, 20⟩ {5} = {5} ∪ unionList [{1}] := by
  have h := (filterApply_spec [("age", [((10 : Int), {1}), ((20 : Int), {2})])]
    {5} "age" 20).2.2 [((10 : Int), {1}), ((20 : Int), {2})] (by decide)
  simpa using h

/-! ### Vector index common layer (`src/index/mod.rs`, `src/index/option.rs`) -/

abbrev Vec32 := List Int

inductive MetricType where
  | ip
  | l2
deriving DecidableEq

structure HnswSearchOption where
  efSearch : Nat
deriving DecidableEq

structure SearchQuery where
  vector : Vec32
  idFilter : Option Bitmap
  hnswOpt : Option HnswSearchOption

structure SearchResult where
  distances : List Int
  labels : List Nat
deriving DecidableEq

/-- A faiss `Idx`: `some id` for a valid label, `none` for the `-1`
sentinel (`Idx::get` returns `None` there). -/
abbrev FaissIdx := Option Nat

/-- The raw `(distances, labels)` pair a backing faiss search reports
before normalization. -/
structure RawSearchResult where
  distances : List Int
  labels : List FaissIdx

/-- `From<faiss::index::SearchResult>` (`src/index/mod.rs` lines 31-45):
keep the labels whose `Idx::get` is `Some`, and take the prefix of
`distances` of that length (`value.distances[..labels.len()]`). -/
def SearchResult.fromRaw (r : RawSearchResult) : SearchResult :=
  let labels := r.labels.filterMap id
  { distances := r.distances.take labels.length, labels := labels }

/-- An `hnsw_rs` `Neighbour` (`d_id` plus its distance). -/
structure Neighbour where
  dId : Nat
  distance : Int

/-- `From<Vec<Neighbour>>` (`src/index/mod.rs` lines 47-54). -/
def SearchResult.fromNeighbours (ns : List Neighbour) : SearchResult :=
  { distances := ns.map (fun n => n.distance), labels := ns.map (fun n => n.dId) }

/-! ### Flat index (`src/index/flat.rs`)

The backing faiss `IdMap(Flat)` index is an external collaborator; the
spec defines it at design level: an id-labelled matrix, exhaustive scoring
of every stored row (restricted to the id selector when set), ascending
order with ties broken by lower id, and `-1` sentinel padding when the
candidate pool cannot fill the requested number of slots. -/

structure NMat where
  nrows : Nat
  ncols : Nat
  rows : List Vec32

def toRows (r c : Nat) (flat : List Int) : List Vec32 :=
  match r with
  | 0 => []
  | n + 1 => flat.take c :: toRows n c (flat.drop c)

/-- `ndarray::Array::from_shape_vec((rows, dim), flat)`. -/
def fromShapeVec (r c : Nat) (flat : List Int) : Option NMat :=
  if r * c = flat.length then some ⟨r, c, toRows r c flat⟩ else none

structure FlatIndex where
  dim : Nat
  metric : MetricType
  entries : List (Nat × Vec32)

def FlatIndex.ntotal (ix : FlatIndex) : Nat := ix.entries.length

/-- `FlatIndex::insert`: reject a row/label count mismatch or a column/dim
mismatch, else `add_with_ids` appends every labelled row. -/
def FlatIndex.insert (ix : FlatIndex) (data : NMat) (labels : List Nat) :
    Except String FlatIndex :=
  if data.nrows ≠ labels.length then
    .error "data rows and labels do not match"
  else if data.ncols ≠ ix.dim then
    .error "data dimension does not match index dimension"
  else
    .ok { ix with entries := ix.entries ++ labels.zip data.rows }

/-- Design-level distance score: squared Euclidean for L2, negated inner
product for IP (smaller is closer). -/
def score (m : MetricType) (q v : Vec32) : Int :=
  match m with
  | .l2 => (q.zip v).foldl (fun a p => a + (p.1 - p.2) * (p.1 - p.2)) 0
  | .ip => (q.zip v).foldl (fun a p => a - p.1 * p.2) 0

/-- Ascending by score, ties broken by lower id. -/
def scoreLe (a b : Int × Nat) : Bool :=
  decide (a.1 < b.1) || (decide (a.1 = b.1) && decide (a.2 ≤ b.2))

def insertSorted (x : Int × Nat) : List (Int × Nat) → List (Int × Nat)
  | [] => [x]
  | y :: ys => if scoreLe x y then x :: y :: ys else y :: insertSorted x ys

def sortByScore (l : List (Int × Nat)) : List (Int × Nat) :=
  l.foldr insertSorted []

/-- The distance slot faiss leaves beside a `-1` sentinel label (a
`FLT_MAX`-like stand-in; never observed through the claims). -/
def invalidDistance : Int := 2 ^ 128

/-- The candidate pool of a backing flat search: every stored row, or only
the rows whose id passes the selector when one is set. -/
def rawCands (ix : FlatIndex) (filt : Option Bitmap) : List (Nat × Vec32) :=
  match filt with
  | none => ix.entries
  | some s => ix.entries.filter (fun p => decide (p.1 ∈ s))

/-- The filled (non-sentinel) slots of a backing flat search: candidates
scored, sorted ascending with ties by lower id, first `targetK` kept. -/
def rawTop (ix : FlatIndex) (q : Vec32) (targetK : Nat)
    (filt : Option Bitmap) : List (Int × Nat) :=
  (sortByScore ((rawCands ix filt).map
    (fun p => (score ix.metric q p.2, p.1)))).take targetK

/-- Design-level model of the backing faiss flat search asked for
`targetK` results: the filled slots, padded to exactly `targetK` slots
with sentinel entries when the candidate pool is too small. -/
def rawFlatSearch (ix : FlatIndex) (q : Vec32) (targetK : Nat)
    (filt : Option Bitmap) : RawSearchResult :=
  let top := rawTop ix q targetK filt
  let pad := targetK - top.length
  { distances := top.map (fun p => p.1) ++ List.replicate pad invalidDistance,
    labels := top.map (fun p => some p.2) ++ List.replicate pad none }

/-- `FlatIndex::search` (`src/index/flat.rs` lines 78-110): clamp `k` to
`ntotal`, answer empty when the clamp is 0, otherwise run the backing
search (with the id selector when the query carries one) and normalize. -/
def FlatIndex.search (ix : FlatIndex) (q : SearchQuery) (k : Nat) :
    Except String SearchResult :=
  if min k ix.ntotal = 0 then
    .ok { distances := [], labels := [] }
  else
    .ok (SearchResult.fromRaw
      (rawFlatSearch ix q.vector (min k ix.ntotal) q.idFilter))

/-- `HnswIndex::search` (`src/index/hnsw.rs`): error when the per-query
`ef_search` option is missing, otherwise normalize whatever neighbour
list the backing graph traversal (an external collaborator) produced. -/
def hnswSearch (backing : List Neighbour) (q : SearchQuery) :
    Except String SearchResult :=
  match q.hnswOpt with
  | none => .error "HNSW search option is not set"
  | some _ => .ok (SearchResult.fromNeighbours backing)

theorem insertSorted_length (x : Int × Nat) (l : List (Int × Nat)) :
    (insertSorted x l).length = l.length + 1 := by
  induction l with
  | nil => rfl
  | cons y ys ih =>
    by_cases h : scoreLe x y
    · simp [insertSorted, h]
    · simp [insertSorted, h, ih]

theorem sortByScore_length (l : List (Int × Nat)) :
    (sortByScore l).length = l.length := by
  induction l with
  | nil => rfl
  | cons x xs ih =>
    simp only [sortByScore, List.foldr_cons] at *
    rw [insertSorted_length, ih, List.length_cons]

theorem filterMap_id_map_some_append_replicate_none (xs : List Nat) (n : Nat) :
    (xs.map some ++ List.replicate n (none : Option Nat)).filterMap id = xs := by
  rw [List.filterMap_append]
  have h1 : (xs.map some).filterMap id = xs := by
    induction xs with
    | nil => rfl
    | cons x xs ih => simp [List.filterMap_cons, ih]
  have h2 : (List.replicate n (none : Option Nat)).filterMap id = [] := by
    induction n with
    | zero => rfl
    | succ n ih => simp [List.replicate_succ, List.filterMap_cons, ih]
  rw [h1, h2, List.append_nil]

theorem take_length_append (l1 l2 : List Int) :
    (l1 ++ l2).take l1.length = l1 := by
  induction l1 with
  | nil => rfl
  | cons x xs ih => simp [List.take_succ_cons, ih]

/-- The normalized form of a padded raw flat result: the labels are the
ids of the filled slots and the distances the matching score prefix. -/
theorem fromRaw_rawFlatSearch (ix : FlatIndex) (q : Vec32) (targetK : Nat)
    (filt : Option Bitmap) :
    SearchResult.fromRaw (rawFlatSearch ix q targetK filt) =
      { distances := (rawTop ix q targetK filt).map (fun p => p.1),
        labels := (rawTop ix q targetK filt).map (fun p => p.2) } := by
  have hmap : (rawTop ix q targetK filt).map (fun p => some p.2) =
      ((rawTop ix q targetK filt).map (fun p => p.2)).map some := by
    rw [List.map_map]
    rfl
  have hlab : ((rawTop ix q targetK filt).map (fun p => some p.2) ++
      List.replicate (targetK - (rawTop ix q targetK filt).length)
        (none : Option Nat)).filterMap id =
      (rawTop ix q targetK filt).map (fun p => p.2) := by
    rw [hmap]
    exact filterMap_id_map_some_append_replicate_none _ _
  simp only [rawFlatSearch, SearchResult.fromRaw, hlab]
  congr 1
  have hlen : ((rawTop ix q targetK filt).map (fun p => p.2)).length =
      ((rawTop ix q targetK filt).map (fun p => p.1)).length := by
    simp
  rw [hlen]
  exact take_length_append _ _

theorem rawTop_length_le (ix : FlatIndex) (q : Vec32) (targetK : Nat)
    (filt : Option Bitmap) : (rawTop ix q targetK filt).length ≤ targetK := by
  simp only [rawTop, List.length_take]
  exact Nat.min_le_left _ _

/-- C4 counterexample: on a flat index holding two vectors
(`ntotal = 2`), a search with `k = 5 > ntotal` but an id selector that
admits only id 1 returns a single result, not `ntotal` results, so the
claimed "result length then equals ntotal" fails for filtered search. -/
theorem flatSearch_clamp_counterexample :
    FlatIndex.search ⟨1, .l2, [(1, [0]), (2, [1])]⟩ ⟨[0], some {1}, none⟩ 5 =
      .ok { distances := [0], labels := [1] } ∧
    5 > FlatIndex.ntotal ⟨1, .l2, [(1, [0]), (2, [1])]⟩ ∧
    (SearchResult.mk [0] [1]).labels.length ≠
      FlatIndex.ntotal ⟨1, .l2, [(1, [0]), (2, [1])]⟩ := by
  refine ⟨rfl, by decide, by decide⟩

/-- C4 (amended): `FlatIndex::search` never errors; `k` is clamped to
`ntotal`; an empty index yields an empty `(distances, labels)` pair; the
result length is at most `k`; and for an unfiltered search with
`k ≥ ntotal` the result length equals `ntotal`.  A filtered search may
return fewer than `ntotal` results even when `k > ntotal`, because the
selector can shrink the candidate pool below the clamped `k`. -/
theorem flatSearch_clamp (ix : FlatIndex) (q : SearchQuery) (k : Nat) :
    (∃ r, FlatIndex.search ix q k = .ok r) ∧
    (ix.ntotal = 0 →
      FlatIndex.search ix q k = .ok { distances := [], labels := [] }) ∧
    (∀ r, FlatIndex.search ix q k = .ok r → r.labels.length ≤ k) ∧
    (q.idFilter = none → ix.ntotal ≤ k →
      ∀ r, FlatIndex.search ix q k = .ok r → r.labels.length = ix.ntotal) := by
  refine ⟨?_, ?_, ?_, ?_⟩
  · unfold FlatIndex.search
    by_cases h0 : min k ix.ntotal = 0
    · rw [if_pos h0]
      exact ⟨_, rfl⟩
    · rw [if_neg h0]
      exact ⟨_, rfl⟩
  · intro h
    have h0 : min k ix.ntotal = 0 := by rw [h]; exact Nat.min_zero k
    unfold FlatIndex.search
    rw [if_pos h0]
  · intro r hr
    unfold FlatIndex.search at hr
    by_cases h0 : min k ix.ntotal = 0
    · rw [if_pos h0] at hr
      cases hr
      simp
    · rw [if_neg h0] at hr
      cases hr
      rw [fromRaw_rawFlatSearch]
      simp only [List.length_map]
      calc (rawTop ix q.vector (min k ix.ntotal) q.idFilter).length
          ≤ min k ix.ntotal := rawTop_length_le _ _ _ _
        _ ≤ k := Nat.min_le_left _ _
  · intro hf hk r hr
    unfold FlatIndex.search at hr
    have hmin : min k ix.ntotal = ix.ntotal := Nat.min_eq_right hk
    by_cases h0 : min k ix.ntotal = 0
    · rw [if_pos h0] at hr
      cases hr
      simp only [List.length_nil]
      omega
    · rw [if_neg h0] at hr
      cases hr
      rw [fromRaw_rawFlatSearch]
      simp only [List.length_map, rawTop, List.length_take, sortByScore_length,
        List.length_map, hf, rawCands, hmin]
      exact Nat.min_eq_left (Nat.le_refl _)

/-- Witness for C4 on an empty flat index and on a full unfiltered
search. -/
theorem flatSearch_clamp_witness :
    FlatIndex.search ⟨3, .l2, []⟩ ⟨[0, 0, 0], none, none⟩ 2 =
      .ok { distances := [], labels := [] } :=
  (flatSearch_clamp ⟨3, .l2, []⟩ ⟨[0, 0, 0], none, none⟩ 2).2.1 rfl

/-- C5: every search result produced by either index variant has
distances and labels of equal length; invalid labels are dropped together
with their distances, so position `i` of the normalized result carries
exactly the distance the backing search reported for that label (for the
flat variant, against the raw faiss result; for HNSW, against the
neighbour list the graph traversal produced). -/
theorem searchResult_normalized (ix : FlatIndex) (q : SearchQuery) (k : Nat)
    (ns : List Neighbour) :
    (∀ r, FlatIndex.search ix q k = .ok r →
      r.distances.length = r.labels.length ∧
      ∀ (i lab : Nat), r.labels[i]? = some lab →
        (rawFlatSearch ix q.vector (min k ix.ntotal) q.idFilter).labels[i]? =
          some (some lab) ∧
        r.distances[i]? =
          (rawFlatSearch ix q.vector (min k ix.ntotal) q.idFilter).distances[i]?) ∧
    (∀ r, hnswSearch ns q = .ok r →
      r.distances.length = r.labels.length ∧
      ∀ (i lab : Nat), r.labels[i]? = some lab →
        ∃ n : Neighbour, ns[i]? = some n ∧ n.dId = lab ∧
          r.distances[i]? = some n.distance) := by
  constructor
  · intro r hr
    unfold FlatIndex.search at hr
    by_cases h0 : min k ix.ntotal = 0
    · rw [if_pos h0] at hr
      cases hr
      refine ⟨rfl, ?_⟩
      intro i lab h
      simp at h
    · rw [if_neg h0] at hr
      rw [fromRaw_rawFlatSearch] at hr
      cases hr
      refine ⟨by simp, ?_⟩
      intro i lab h
      simp only [List.getElem?_map] at h
      obtain ⟨p, hp, hlab⟩ := Option.map_eq_some'.mp h
      have hi : i < (rawTop ix q.vector (min k ix.ntotal) q.idFilter).length := by
        by_contra hge
        rw [List.getElem?_eq_none (Nat.le_of_not_lt hge)] at hp
        exact Option.noConfusion hp
      simp only [rawFlatSearch]
      constructor
      · rw [List.getElem?_append_left (by simpa using hi), List.getElem?_map, hp]
        simp [hlab]
      · simp only [List.getElem?_map]
        rw [List.getElem?_append_left (by simpa using hi), List.getElem?_map]
  · intro r hr
    unfold hnswSearch at hr
    cases hq : q.hnswOpt with
    | none =>
      rw [hq] at hr
      exact Except.noConfusion hr
    | some opt =>
      rw [hq] at hr
      cases hr
      refine ⟨by simp [SearchResult.fromNeighbours], ?_⟩
      intro i lab h
      simp only [SearchResult.fromNeighbours, List.getElem?_map] at h
      obtain ⟨n, hn, hlab⟩ := Option.map_eq_some'.mp h
      refine ⟨n, hn, hlab, ?_⟩
      simp only [SearchResult.fromNeighbours, List.getElem?_map, hn,
        Option.map_some']

/-- Witness for C5 on a one-vector flat index and a one-neighbour HNSW
result. -/
theorem searchResult_normalized_witness :
    ((rawFlatSearch ⟨1, .l2, [(7, [0])]⟩ [0]
        (min 1 (FlatIndex.ntotal ⟨1, .l2, [(7, [0])]⟩)) none).labels[0]? =
      some (some 7) ∧
    (SearchResult.mk [0] [7]).distances[0]? =
      (rawFlatSearch ⟨1, .l2, [(7, [0])]⟩ [0]
        (min 1 (FlatIndex.ntotal ⟨1, .l2, [(7, [0])]⟩)) none).distances[0]?) ∧
    ∃ n, ([⟨9, 4⟩] : List Neighbour)[0]? = some n ∧ n.dId = 9 ∧
      (SearchResult.mk [4] [9]).distances[0]? = some n.distance := by
  constructor
  · exact ((searchResult_normalized ⟨1, .l2, [(7, [0])]⟩ ⟨[0], none, none⟩ 1
      []).1 ⟨[0], [7]⟩ rfl).2 0 7 rfl
  · exact ((searchResult_normalized ⟨1, .l2, [(7, [0])]⟩
      ⟨[0], none, some ⟨10⟩⟩ 1 [⟨9, 4⟩]).2 ⟨[4], [9]⟩ rfl).2 0 9 rfl

/-! ### Scalar store and id allocation (`src/scalar.rs`) -/

/-- A value stored in the ordered KV engine: raw metadata bytes, or a
JSON document (JSON serialization is injective, so documents are kept
structured rather than re-encoded byte by byte). -/
inductive ScalarVal where
  | bytes (bs : Bytes)
  | doc (d : List (String × Json))

/-- The embedded KV store as an association list of byte keys. -/
abbrev Store := List (Bytes × ScalarVal)

def putStore (db : Store) (key : Bytes) (val : ScalarVal) : Store :=
  match db with
  | [] => [(key, val)]
  | (k, v) :: rest =>
    if k = key then (key, val) :: rest else (k, v) :: putStore rest key val

def lookupStore (db : Store) (key : Bytes) : Option ScalarVal :=
  match db with
  | [] => none
  | (k, v) :: rest => if k = key then some v else lookupStore rest key

theorem lookupStore_putStore_self (db : Store) (k : Bytes) (v : ScalarVal) :
    lookupStore (putStore db k v) k = some v := by
  induction db with
  | nil => simp [putStore, lookupStore]
  | cons p rest ih =>
    by_cases h : p.1 = k
    · simp [putStore, lookupStore, h]
    · simp [putStore, lookupStore, h, ih]

theorem lookupStore_putStore_ne (db : Store) (k k2 : Bytes) (v : ScalarVal)
    (h : k ≠ k2) :
    lookupStore (putStore db k v) k2 = lookupStore db k2 := by
  induction db with
  | nil => simp [putStore, lookupStore, h]
  | cons p rest ih =>
    by_cases hp : p.1 = k
    · simp [putStore, lookupStore, hp, h]
    · by_cases hp2 : p.1 = k2
      · simp [putStore, lookupStore, hp, hp2, Ne.symm h]
      · simp [putStore, lookupStore, hp, hp2, ih]

/-- The reserved key `__id_max__` as bytes (this byte list appears
verbatim in `debug_print_scalar_db`). -/
def idMaxKey : Bytes := [95, 95, 105, 100, 95, 109, 97, 120, 95, 95]

/-- The `max_id` read of `gen_incr_ids`: decode the stored `__id_max__`
value `u64::from_be_bytes`, default 0 when the key is absent, error when
the stored buffer is not 8 bytes. -/
def readIdMax (db : Store) : Except String Nat :=
  match lookupStore db idMaxKey with
  | none => .ok 0
  | some (.bytes bs) =>
    if bs.length = 8 then .ok (u64FromBeBytes bs)
    else .error "failed to convert incr ID as u64"
  | some (.doc _) => .error "failed to convert incr ID as u64"

/-- `gen_incr_ids` (`src/scalar.rs` lines 116-140), the body run under the
store's id mutex: read the max id, return `max+1 ..= max+num`
(`(max_id + 1..new_max + 1).collect()`), persist `max+num` big-endian. -/
def genIncrIds (db : Store) (num : Nat) : Except String (List Nat × Store) :=
  match readIdMax db with
  | .error e => .error e
  | .ok maxId =>
    .ok (List.range' (maxId + 1) num,
      putStore db idMaxKey (.bytes (be64 (maxId + num))))

/-- The id high-water slot holds `maxId` (an absent slot encodes 0). -/
def idMaxIs (db : Store) (maxId : Nat) : Prop :=
  (lookupStore db idMaxKey = none ∧ maxId = 0) ∨
    lookupStore db idMaxKey = some (.bytes (be64 maxId))

theorem genIncrIds_eq (db : Store) (m n : Nat) (hwf : idMaxIs db m)
    (hlt : m < 2 ^ 64) :
    genIncrIds db n =
      .ok (List.range' (m + 1) n,
        putStore db idMaxKey (.bytes (be64 (m + n)))) := by
  rcases hwf with ⟨h, rfl⟩ | h
  · simp [genIncrIds, readIdMax, h]
  · simp [genIncrIds, readIdMax, h, be64_length, u64FromBeBytes_be64 m hlt]

/-- Sequential composition of allocations (the store's id mutex
serializes concurrent callers into some such sequence). -/
def runAllocs (db : Store) (reqs : List Nat) :
    Except String (List (List Nat) × Store) :=
  match reqs with
  | [] => .ok ([], db)
  | n :: rest =>
    match genIncrIds db n with
    | .error e => .error e
    | .ok (ids, db2) =>
      match runAllocs db2 rest with
      | .error e => .error e
      | .ok (idss, db3) => .ok (ids :: idss, db3)

theorem runAllocs_spec (reqs : List Nat) (db : Store) (m : Nat)
    (hwf : idMaxIs db m) (hlt : m + reqs.sum < 2 ^ 64) :
    ∃ idss db2, runAllocs db reqs = .ok (idss, db2) ∧
      idMaxIs db2 (m + reqs.sum) ∧
      (∀ batch ∈ idss, ∀ a ∈ batch, m < a ∧ a ≤ m + reqs.sum) ∧
      idss.Pairwise (fun b1 b2 => ∀ a ∈ b1, ∀ b ∈ b2, a < b) := by
  induction reqs generalizing db m with
  | nil =>
    refine ⟨[], db, rfl, by simpa using hwf, by simp, by simp⟩
  | cons n rest ih =>
    have hm : m < 2 ^ 64 := by
      have := List.sum_cons (a := n) (l := rest)
      omega
    have hstep := genIncrIds_eq db m n hwf hm
    have hwf2 : idMaxIs (putStore db idMaxKey (.bytes (be64 (m + n))))
        (m + n) := Or.inr (lookupStore_putStore_self _ _ _)
    have hlt2 : (m + n) + rest.sum < 2 ^ 64 := by
      have := List.sum_cons (a := n) (l := rest)
      omega
    obtain ⟨idss, db3, hrun, hwf3, hbound, hpair⟩ :=
      ih (putStore db idMaxKey (.bytes (be64 (m + n)))) (m + n) hwf2 hlt2
    refine ⟨List.range' (m + 1) n :: idss, db3, ?_, ?_, ?_, ?_⟩
    · simp [runAllocs, hstep, hrun]
    · have : m + (n :: rest).sum = (m + n) + rest.sum := by
        simp [List.sum_cons]
        omega
      rw [this]
      exact hwf3
    · intro batch hb a ha
      have hsum : m + (n :: rest).sum = (m + n) + rest.sum := by
        simp [List.sum_cons]
        omega
      rcases List.mem_cons.mp hb with rfl | hb2
      · have := List.mem_range'_1.mp ha
        omega
      · have := hbound batch hb2 a ha
        omega
    · refine List.Pairwise.cons ?_ hpair
      intro batch hb a ha b hbmem
      have ha2 := List.mem_range'_1.mp ha
      have hb2 := (hbound batch hb b hbmem).1
      omega

/-- C6: one allocation of `n` ids, under the store's id mutex, reads the
stored max (default 0 when absent), returns exactly the contiguous range
`old_max+1 ..= old_max+n` and persists `old_max+n`; consequently, across
any sequence of allocations, every returned id strictly exceeds every id
of every earlier allocation. -/
theorem genIncrIds_spec (db : Store) (m : Nat) (hwf : idMaxIs db m) :
    (∀ n, m + n < 2 ^ 64 →
      genIncrIds db n = .ok (List.range' (m + 1) n,
        putStore db idMaxKey (.bytes (be64 (m + n))))) ∧
    (∀ reqs : List Nat, m + reqs.sum < 2 ^ 64 →
      ∃ idss db2, runAllocs db reqs = .ok (idss, db2) ∧
        idss.Pairwise (fun b1 b2 => ∀ a ∈ b1, ∀ b ∈ b2, a < b)) := by
  constructor
  · intro n hn
    exact genIncrIds_eq db m n hwf (by omega)
  · intro reqs hs
    obtain ⟨idss, db2, hrun, _, _, hpair⟩ := runAllocs_spec reqs db m hwf hs
    exact ⟨idss, db2, hrun, hpair⟩

/-- Witness for C6: from an empty store, allocating 2 ids yields `[1, 2]`
and persists 2 big-endian; two successive allocations are monotone. -/
theorem genIncrIds_spec_witness :
    genIncrIds [] 2 = .ok (List.range' 1 2,
      putStore [] idMaxKey (.bytes (be64 2))) ∧
    ∃ idss db2, runAllocs [] [2, 1] = .ok (idss, db2) ∧
      idss.Pairwise (fun b1 b2 => ∀ a ∈ b1, ∀ b ∈ b2, a < b) := by
  have h := genIncrIds_spec [] 0 (Or.inl ⟨rfl, rfl⟩)
  exact ⟨h.1 2 (by decide), h.2 [2, 1] (by decide)⟩

/-! ### WAL persistence (`src/persistence.rs`) -/

/-- The raw reserved key `__wal_id__` as bytes. -/
def walIdKeyRaw : Bytes := [95, 95, 119, 97, 108, 95, 105, 100, 95, 95]

/-- The log-id counter initialization of `new_persistence`
(`src/persistence.rs` lines 86-99): read the namespaced `__wal_id__`
value and decode it with `u64::from_le_bytes`, defaulting to 0 when
absent.  The namespace constant `NAMESPACE_WALS` is referenced by the
source but defined outside the files at hand, so the composed key is a
parameter here; the decode logic does not depend on it. -/
def newPersistenceLogId (db : Store) (walKey : Bytes) : Except String Nat :=
  match lookupStore db walKey with
  | none => .ok 0
  | some (.bytes bs) =>
    if bs.length = 8 then .ok (u64FromLeBytes bs)
    else .error "Failed to convert bytes to u64"
  | some (.doc _) => .error "Failed to convert bytes to u64"

/-- C9 counterexample: the persistence constructor decodes the WAL
high-water value with `from_le_bytes`, so a big-endian-written 1 reads
back as `2 ^ 56`, refuting "the value a writer stores (as 8-byte
big-endian) is the value a later reader decodes". -/
theorem walId_endianness_counterexample :
    newPersistenceLogId (putStore [] walIdKeyRaw (.bytes (be64 1)))
      walIdKeyRaw = .ok 72057594037927936 ∧
    (72057594037927936 : Nat) ≠ 1 := by
  exact ⟨rfl, by decide⟩

/-- C9 (amended): the document-id max under `__id_max__` round-trips as
an 8-byte big-endian u64 (the value an allocation persists is the value
the next allocation decodes), while the WAL log-id is decoded by the
persistence constructor as 8-byte **little**-endian (defaulting to 0 when
absent), so only a little-endian writer round-trips through it; the
sources at hand never write it back. -/
theorem highWaterMark_encoding (db : Store) (m n v : Nat) (walKey : Bytes)
    (hwf : idMaxIs db m) (hlt : m + n < 2 ^ 64) (hv : v < 2 ^ 64) :
    (∃ ids db2, genIncrIds db n = .ok (ids, db2) ∧
      lookupStore db2 idMaxKey = some (.bytes (be64 (m + n))) ∧
      (be64 (m + n)).length = 8 ∧
      readIdMax db2 = .ok (m + n)) ∧
    newPersistenceLogId (putStore db walKey (.bytes (le64 v))) walKey =
      .ok v ∧
    (lookupStore db walKey = none →
      newPersistenceLogId db walKey = .ok 0) := by
  refine ⟨?_, ?_, ?_⟩
  · refine ⟨List.range' (m + 1) n, putStore db idMaxKey (.bytes (be64 (m + n))),
      genIncrIds_eq db m n hwf (by omega), lookupStore_putStore_self _ _ _,
      be64_length _, ?_⟩
    simp [readIdMax, lookupStore_putStore_self, be64_length,
      u64FromBeBytes_be64 (m + n) hlt]
  · simp only [newPersistenceLogId, lookupStore_putStore_self]
    have hlen : (le64 v).length = 8 := by
      simp [le64, be64]
    simp [hlen, u64FromLeBytes_le64 v hv]
  · intro h
    simp [newPersistenceLogId, h]

/-- Witness for C9's amended statement on an empty store with `v = 1`. -/
theorem highWaterMark_encoding_witness :
    newPersistenceLogId (putStore [] walIdKeyRaw (.bytes (le64 1)))
      walIdKeyRaw = .ok 1 :=
  (highWaterMark_encoding [] 0 1 1 walIdKeyRaw (Or.inl ⟨rfl, rfl⟩)
    (by decide) (by decide)).2.1

/-! ### Database façade (`src/vecdb.rs`) -/

/-- `DocMap = HashMap<String, Value>` as an association list. -/
abbrev DocMap := List (String × Json)

/-- `HashMap::insert`: replace the value under the key, or append it. -/
def docInsert (d : DocMap) (key : String) (v : Json) : DocMap :=
  match d with
  | [] => [(key, v)]
  | (k, w) :: rest =>
    if k = key then (key, v) :: rest else (k, w) :: docInsert rest key v

/-- The document `insert_doc` persists for a row: the caller document
with `id` and `attributes` injected (overwriting caller-supplied ones). -/
def mkDoc (doc : DocMap) (attrs : List (String × Json)) (id : Nat) : DocMap :=
  docInsert (docInsert doc "id" (.num (.posInt id))) "attributes" (.obj attrs)

/-- The WAL operations matched by `apply_wal_log_record`
(`src/vecdb.rs`). -/
inductive WALLogOperation where
  | insert
  | update
  | delete

structure WALLogRecord where
  logId : Nat
  version : String
  operation : WALLogOperation
  data : Bytes

/-- One observable step of an upsert, in execution order. -/
inductive UpsertEvent where
  | walAppend
  | idAlloc (ids : List Nat)
  | vectorInsert (ids : List Nat)
  | scalarPut (id : Nat)
  | filterUpdate (field : String) (value : Int) (id : Nat)
deriving DecidableEq

/-- The whole database state: parameters, vector index, filter index,
scalar store, plus the WAL file contents and the persistence log-id
counter. -/
structure DBState where
  dim : Nat
  metric : MetricType
  vectorIndex : FlatIndex
  filterIndex : AttrLookupTable
  scalar : Store
  wal : List WALLogRecord
  walCounter : Nat

/-- `VectorDatabase::insert_attribute` (`src/vecdb.rs` lines 247-268):
number values representable as `i64` go into the filter index, other
number values are passed over, and the first non-number value aborts with
an error; mutations already made stand. -/
def insertAttribute (attrs : List (String × Json)) (id : Nat)
    (fidx : AttrLookupTable) :
    Option String × AttrLookupTable × List UpsertEvent :=
  match attrs with
  | [] => (none, fidx, [])
  | (key, v) :: rest =>
    match v with
    | .num n =>
      match n.asI64 with
      | some iv =>
        match insertAttribute rest id (filterUpsert fidx key iv id) with
        | (e, f2, evs) => (e, f2, .filterUpdate key iv id :: evs)
      | none => insertAttribute rest id fidx
    | _ => (some ("unsupported attribute type for key " ++ key), fidx, [])

structure VectorInsertArgs where
  flatData : List Int
  dataRow : Nat
  dataDim : Nat
  docs : List (Option DocMap)
  attributes : List (Option (List (String × Json)))

/-- `VectorInsertArgs::validate` (`src/vecdb.rs` lines 380-399): the
first mismatching field with its actual and expected value, or
`("", 0, 0)` when all three checks pass. -/
def VectorInsertArgs.validate (args : VectorInsertArgs) : String × Nat × Nat :=
  if args.docs.length ≠ args.dataRow then
    ("docs", args.docs.length, args.dataRow)
  else if !args.attributes.isEmpty && args.attributes.length != args.dataRow then
    ("attributes", args.attributes.length, args.dataRow)
  else if args.dataDim * args.dataRow ≠ args.flatData.length then
    ("flat_data", args.flatData.length, args.dataDim * args.dataRow)
  else ("", 0, 0)

/-- The per-row loop of `upsert`: store the enriched document, then (when
the row's attribute map is non-empty) index its attributes, aborting on
the first attribute error with every prior mutation kept. -/
def processRows (st : DBState)
    (items : List (Nat × Option DocMap × Option (List (String × Json)))) :
    Option String × DBState × List UpsertEvent :=
  match items with
  | [] => (none, st, [])
  | (id, doc, attr) :: rest =>
    let docMap := doc.getD []
    let attrMap := attr.getD []
    let st2 := { st with
      scalar := putStore st.scalar (be64 id) (.doc (mkDoc docMap attrMap id)) }
    if attrMap.isEmpty then
      match processRows st2 rest with
      | (err, st3, evs) => (err, st3, .scalarPut id :: evs)
    else
      match insertAttribute attrMap id st2.filterIndex with
      | (some e, f2, evs) =>
        (some e, { st2 with filterIndex := f2 }, .scalarPut id :: evs)
      | (none, f2, evs) =>
        match processRows { st2 with filterIndex := f2 } rest with
        | (err, st3, evs2) => (err, st3, .scalarPut id :: (evs ++ evs2))

/-- `VectorDatabase::upsert` (`src/vecdb.rs` lines 125-176): validate,
allocate ids, insert the vectors, then write documents and filter entries
row by row.  The third component records the observable steps in
execution order; note the absence of any WAL interaction. -/
def upsert (st : DBState) (args : VectorInsertArgs) :
    Except String Unit × DBState × List UpsertEvent :=
  if args.validate.1 ≠ "" then
    (.error ("unexpected length of field " ++ args.validate.1), st, [])
  else
    match genIncrIds st.scalar args.dataRow with
    | .error e => (.error e, st, [])
    | .ok (ids, scalar2) =>
      match fromShapeVec args.dataRow args.dataDim args.flatData with
      | none =>
        (.error "unable to create array from flat data",
          { st with scalar := scalar2 }, [.idAlloc ids])
      | some mat =>
        match FlatIndex.insert st.vectorIndex mat ids with
        | .error e => (.error e, { st with scalar := scalar2 }, [.idAlloc ids])
        | .ok ix2 =>
          let attrsEff := if args.attributes.isEmpty
            then List.replicate args.dataRow (some ([] : List (String × Json)))
            else args.attributes
          match processRows { st with scalar := scalar2, vectorIndex := ix2 }
              (ids.zip (args.docs.zip attrsEff)) with
          | (some e, st4, evs) =>
            (.error e, st4, .idAlloc ids :: .vectorInsert ids :: evs)
          | (none, st4, evs) =>
            (.ok (), st4, .idAlloc ids :: .vectorInsert ids :: evs)

/-- `VectorDatabase::new`: fresh (empty) vector index and filter index
over the existing scalar store; the WAL file holds whatever survived. -/
def newDatabase (dim : Nat) (metric : MetricType) (scalar : Store)
    (walFile : List WALLogRecord) (walCounter : Nat) : DBState :=
  { dim := dim, metric := metric, vectorIndex := ⟨dim, metric, []⟩,
    filterIndex := [], scalar := scalar, wal := walFile,
    walCounter := walCounter }

/-- `VectorDatabase::apply_wal_log_record` (`src/vecdb.rs` lines
365-377): every operation arm is an empty stub. -/
def applyWalLogRecord (st : DBState) (record : WALLogRecord) : DBState :=
  match record.operation with
  | .insert => st
  | .update => st
  | .delete => st

/-- `VectorDatabase::recover_database` (`src/vecdb.rs` lines 336-363):
iterate the WAL file oldest to newest and apply each record. -/
def recoverDatabase (st : DBState) : DBState :=
  st.wal.foldl applyWalLogRecord st

theorem genIncrIds_ok_length (db : Store) (num : Nat) (ids : List Nat)
    (db2 : Store) (h : genIncrIds db num = .ok (ids, db2)) :
    ids.length = num := by
  unfold genIncrIds at h
  cases hr : readIdMax db with
  | error e =>
    rw [hr] at h
    exact Except.noConfusion h
  | ok m =>
    rw [hr] at h
    cases h
    exact List.length_range' _ _ _

theorem fromShapeVec_some (r c : Nat) (flat : List Int) (mat : NMat)
    (h : fromShapeVec r c flat = some mat) :
    mat.nrows = r ∧ mat.ncols = c ∧ mat.rows = toRows r c flat := by
  unfold fromShapeVec at h
  by_cases hrc : r * c = flat.length
  · rw [if_pos hrc] at h
    cases h
    exact ⟨rfl, rfl, rfl⟩
  · rw [if_neg hrc] at h
    exact Option.noConfusion h

/-- C1 (code bug): evaluating the upsert path at a valid one-row input,
the observable steps are id allocation, vector insert, scalar put — with
no WAL append anywhere and the WAL file left empty — so no WAL record is
appended before (or after) the state mutations of the operation. -/
theorem upsert_no_wal_append :
    (upsert (newDatabase 3 MetricType.l2 [] [] 0)
        ⟨[1, 2, 3], 1, 3, [none], []⟩).1 = .ok () ∧
    (upsert (newDatabase 3 MetricType.l2 [] [] 0)
        ⟨[1, 2, 3], 1, 3, [none], []⟩).2.2 =
      [.idAlloc [1], .vectorInsert [1], .scalarPut 1] ∧
    UpsertEvent.walAppend ∉
      ([.idAlloc [1], .vectorInsert [1], .scalarPut 1] : List UpsertEvent) ∧
    (upsert (newDatabase 3 MetricType.l2 [] [] 0)
        ⟨[1, 2, 3], 1, 3, [none], []⟩).2.1.wal = ([] : List WALLogRecord) := by
  exact ⟨rfl, rfl, by decide, rfl⟩

/-- C2 (code bug): after one successful upsert the in-memory vector index
holds the inserted row, but the upsert path appended nothing to the WAL
and `apply_wal_log_record` is an empty stub, so recovering a freshly
constructed database over the surviving scalar store and WAL file
reproduces an empty vector index — not the original in-memory state. -/
theorem recovery_not_idempotent :
    (upsert (newDatabase 3 MetricType.l2 [] [] 0)
        ⟨[1, 2, 3], 1, 3, [none], []⟩).1 = .ok () ∧
    (upsert (newDatabase 3 MetricType.l2 [] [] 0)
        ⟨[1, 2, 3], 1, 3, [none], []⟩).2.1.vectorIndex.entries =
      [(1, [1, 2, 3])] ∧
    (recoverDatabase (newDatabase 3 MetricType.l2
        (upsert (newDatabase 3 MetricType.l2 [] [] 0)
          ⟨[1, 2, 3], 1, 3, [none], []⟩).2.1.scalar
        (upsert (newDatabase 3 MetricType.l2 [] [] 0)
          ⟨[1, 2, 3], 1, 3, [none], []⟩).2.1.wal 0)).vectorIndex.entries =
      ([] : List (Nat × Vec32)) ∧
    ([] : List (Nat × Vec32)) ≠ [(1, [1, 2, 3])] := by
  exact ⟨rfl, rfl, rfl, by decide⟩

/-- C8 counterexample: a declared `data_dim = 4` against an index of dim
3 (with `flat_data.len = rows * 4` kept consistent) passes `validate`;
the upsert then allocates an id — persisting a new `__id_max__` — before
the vector insert rejects the dimension, so this error is not free of
side effects. -/
theorem upsert_validation_counterexample :
    (VectorInsertArgs.validate ⟨[1, 2, 3, 4], 1, 4, [none], []⟩).1 = "" ∧
    (4 : Nat) ≠ (newDatabase 3 MetricType.l2 [] [] 0).vectorIndex.dim ∧
    (upsert (newDatabase 3 MetricType.l2 [] [] 0)
        ⟨[1, 2, 3, 4], 1, 4, [none], []⟩).1 =
      .error "data dimension does not match index dimension" ∧
    lookupStore (upsert (newDatabase 3 MetricType.l2 [] [] 0)
        ⟨[1, 2, 3, 4], 1, 4, [none], []⟩).2.1.scalar idMaxKey =
      some (.bytes (be64 1)) ∧
    lookupStore (newDatabase 3 MetricType.l2 [] [] 0).scalar idMaxKey =
      none := by
  exact ⟨rfl, by decide, rfl, rfl, rfl⟩

/-- C8 (amended): when one of `validate`'s three checks fails (`docs.len
≠ rows`; `attributes` non-empty with `attributes.len ≠ rows`;
`flat_data.len ≠ rows·dim`), the call returns an error with no side
effects: the state is returned untouched and no step was taken.  A
declared dim differing from the index's dim is not checked by `validate`;
it errors at vector-insert time, after the id allocation has advanced the
persisted id max. -/
theorem upsert_validate_spec (st : DBState) (args : VectorInsertArgs) :
    (args.validate.1 ≠ "" →
      upsert st args =
        (.error ("unexpected length of field " ++ args.validate.1), st, [])) ∧
    (∀ ids scalar2 mat, args.validate.1 = "" →
      genIncrIds st.scalar args.dataRow = .ok (ids, scalar2) →
      fromShapeVec args.dataRow args.dataDim args.flatData = some mat →
      mat.ncols ≠ st.vectorIndex.dim →
      upsert st args =
        (.error "data dimension does not match index dimension",
          { st with scalar := scalar2 }, [.idAlloc ids])) := by
  constructor
  · intro h
    rw [upsert, if_pos h]
  · intro ids scalar2 mat hval hgen hmat hcol
    have hlen := genIncrIds_ok_length st.scalar args.dataRow ids scalar2 hgen
    obtain ⟨hr, hc, _⟩ :=
      fromShapeVec_some args.dataRow args.dataDim args.flatData mat hmat
    have hnn : ¬(mat.nrows ≠ ids.length) := by
      rw [hr, hlen]
      exact not_not_intro rfl
    rw [upsert, if_neg (not_not_intro hval), hgen, hmat]
    simp only [FlatIndex.insert]
    rw [if_neg hnn, if_pos hcol]

/-- Witness for C8's amended statement: a docs-length mismatch is
rejected with the state untouched. -/
theorem upsert_validate_spec_witness :
    upsert (newDatabase 3 MetricType.l2 [] [] 0) ⟨[1, 2, 3], 1, 3, [], []⟩ =
      (.error ("unexpected length of field " ++
        (VectorInsertArgs.validate ⟨[1, 2, 3], 1, 3, [], []⟩).1),
        newDatabase 3 MetricType.l2 [] [] 0, []) :=
  (upsert_validate_spec (newDatabase 3 MetricType.l2 [] [] 0)
    ⟨[1, 2, 3], 1, 3, [], []⟩).1 (by decide)

/-! ### Attribute indexing (claims C7 and C10) -/

/-- The `(field, i64 value)` pairs `insert_attribute` indexes: the
`i64`-representable number values, up to the first non-number value. -/
def indexableOf (attrs : List (String × Json)) : List (String × Int) :=
  (attrs.takeWhile (fun p => p.2.isNum)).filterMap
    (fun p => match p.2 with
      | .num n => (n.asI64).map (fun iv => (p.1, iv))
      | _ => none)

theorem insertAttribute_none_iff (attrs : List (String × Json)) (id : Nat)
    (fidx : AttrLookupTable) :
    (insertAttribute attrs id fidx).1 = none ↔
      ∀ p ∈ attrs, p.2.isNum = true := by
  induction attrs generalizing fidx with
  | nil => simp [insertAttribute]
  | cons a rest ih =>
    obtain ⟨key, v⟩ := a
    cases v
    case num n =>
      cases hn : n.asI64 with
      | some iv =>
        rcases hrec : insertAttribute rest id (filterUpsert fidx key iv id)
          with ⟨e, f2, evs⟩
        have hiff := ih (filterUpsert fidx key iv id)
        rw [hrec] at hiff
        simp only [insertAttribute, hn, hrec]
        simp only at hiff
        constructor
        · intro he p hp
          rcases List.mem_cons.mp hp with rfl | hp2
          · rfl
          · exact hiff.mp he p hp2
        · intro hall
          exact hiff.mpr (fun p hp => hall p (List.mem_cons_of_mem _ hp))
      | none =>
        have hiff := ih fidx
        simp only [insertAttribute, hn]
        constructor
        · intro he p hp
          rcases List.mem_cons.mp hp with rfl | hp2
          · rfl
          · exact hiff.mp he p hp2
        · intro hall
          exact hiff.mpr (fun p hp => hall p (List.mem_cons_of_mem _ hp))
    all_goals
      simp only [insertAttribute]
      refine ⟨fun he => absurd he (by simp), fun hall => ?_⟩
      have hh := hall _ (List.mem_cons_self _ _)
      simp [Json.isNum] at hh

theorem insertAttribute_filter_eq (attrs : List (String × Json)) (id : Nat)
    (fidx : AttrLookupTable) :
    (insertAttribute attrs id fidx).2.1 =
      (indexableOf attrs).foldl (fun t q => filterUpsert t q.1 q.2 id) fidx := by
  induction attrs generalizing fidx with
  | nil => simp [insertAttribute, indexableOf]
  | cons a rest ih =>
    obtain ⟨key, v⟩ := a
    cases v
    case num n =>
      cases hn : n.asI64 with
      | some iv =>
        rcases hrec : insertAttribute rest id (filterUpsert fidx key iv id)
          with ⟨e, f2, evs⟩
        have h2 := ih (filterUpsert fidx key iv id)
        rw [hrec] at h2
        simp only [insertAttribute, hn, hrec]
        simp only at h2
        rw [h2]
        have hix : indexableOf ((key, Json.num n) :: rest) =
            (key, iv) :: indexableOf rest := by
          simp [indexableOf, List.takeWhile_cons, Json.isNum,
            List.filterMap_cons, hn]
        rw [hix, List.foldl_cons]
      | none =>
        have h2 := ih fidx
        simp only [insertAttribute, hn]
        rw [h2]
        have hix : indexableOf ((key, Json.num n) :: rest) =
            indexableOf rest := by
          simp [indexableOf, List.takeWhile_cons, Json.isNum,
            List.filterMap_cons, hn]
        rw [hix]
    all_goals
      simp [insertAttribute, indexableOf, List.takeWhile_cons, Json.isNum]

theorem processRows_ok_attrs
    (items : List (Nat × Option DocMap × Option (List (String × Json))))
    (st : DBState) (h : (processRows st items).1 = none) :
    ∀ x ∈ items, ∀ p ∈ x.2.2.getD [], p.2.isNum = true := by
  induction items generalizing st with
  | nil =>
    intro x hx
    exact absurd hx (by simp)
  | cons it rest ih =>
    obtain ⟨id, doc, attr⟩ := it
    intro x hx p hp
    simp only [processRows] at h
    by_cases hemp : (attr.getD []).isEmpty = true
    · rw [if_pos hemp] at h
      rcases hpr : processRows { st with scalar := putStore st.scalar (be64 id) (.doc (mkDoc (doc.getD []) (attr.getD []) id)) } rest with ⟨err, st3, evs⟩
      rw [hpr] at h
      simp only at h
      rcases List.mem_cons.mp hx with rfl | hx2
      · rw [List.isEmpty_iff.mp hemp] at hp
        exact absurd hp (by simp)
      · exact ih _ (by rw [hpr]; simpa using h) x hx2 p hp
    · rw [if_neg hemp] at h
      rcases hia : insertAttribute (attr.getD []) id st.filterIndex
        with ⟨e, f2, evs⟩
      rw [hia] at h
      cases e with
      | some e2 => simp at h
      | none =>
        simp only [] at h
        rcases hpr : processRows { st with scalar := putStore st.scalar (be64 id) (.doc (mkDoc (doc.getD []) (attr.getD []) id)), filterIndex := f2 } rest with ⟨err, st4, evs2⟩
        rw [hpr] at h
        simp only at h
        rcases List.mem_cons.mp hx with rfl | hx2
        · exact (insertAttribute_none_iff (attr.getD []) id st.filterIndex).mp
            (by rw [hia]) p hp
        · exact ih _ (by rw [hpr]; simpa using h) x hx2 p hp

theorem validate_empty_facts (args : VectorInsertArgs)
    (h : args.validate.1 = "") :
    args.docs.length = args.dataRow ∧
    (args.attributes.isEmpty = true ∨
      args.attributes.length = args.dataRow) ∧
    args.dataDim * args.dataRow = args.flatData.length := by
  unfold VectorInsertArgs.validate at h
  by_cases h1 : args.docs.length ≠ args.dataRow
  · rw [if_pos h1] at h
    have hc : ("docs" : String) ≠ "" := by decide
    exact absurd h hc
  · rw [if_neg h1] at h
    by_cases h2 : (!args.attributes.isEmpty &&
        args.attributes.length != args.dataRow) = true
    · rw [if_pos h2] at h
      have hc : ("attributes" : String) ≠ "" := by decide
      exact absurd h hc
    · rw [if_neg h2] at h
      by_cases h3 : args.dataDim * args.dataRow ≠ args.flatData.length
      · rw [if_pos h3] at h
        have hc : ("flat_data" : String) ≠ "" := by decide
        exact absurd h hc
      · refine ⟨not_not.mp h1, ?_, not_not.mp h3⟩
        simp only [Bool.and_eq_true, Bool.not_eq_true', bne_iff_ne,
          not_and_or, Bool.not_eq_false] at h2
        rcases h2 with h2 | h2
        · exact Or.inl h2
        · exact Or.inr (not_not.mp h2)

theorem upsert_ok_decompose (st : DBState) (args : VectorInsertArgs)
    (hok : (upsert st args).1 = .ok ()) :
    ∃ ids scalar2 mat ix2,
      args.validate.1 = "" ∧
      genIncrIds st.scalar args.dataRow = .ok (ids, scalar2) ∧
      fromShapeVec args.dataRow args.dataDim args.flatData = some mat ∧
      FlatIndex.insert st.vectorIndex mat ids = .ok ix2 ∧
      (processRows { st with scalar := scalar2, vectorIndex := ix2 }
        (ids.zip (args.docs.zip (if args.attributes.isEmpty
          then List.replicate args.dataRow (some ([] : List (String × Json)))
          else args.attributes)))).1 = none := by
  by_cases hval : args.validate.1 ≠ ""
  · rw [upsert, if_pos hval] at hok
    simp at hok
  · rw [upsert, if_neg hval] at hok
    cases hgen : genIncrIds st.scalar args.dataRow with
    | error e =>
      simp only [hgen] at hok
      simp at hok
    | ok pr =>
      obtain ⟨ids, scalar2⟩ := pr
      simp only [hgen] at hok
      cases hmat : fromShapeVec args.dataRow args.dataDim args.flatData with
      | none =>
        simp only [hmat] at hok
        simp at hok
      | some mat =>
        simp only [hmat] at hok
        cases hins : FlatIndex.insert st.vectorIndex mat ids with
        | error e =>
          simp only [hins] at hok
          simp at hok
        | ok ix2 =>
          simp only [hins] at hok
          rcases hpr : processRows { st with scalar := scalar2, vectorIndex := ix2 } (ids.zip (args.docs.zip (if args.attributes.isEmpty then List.replicate args.dataRow (some ([] : List (String × Json))) else args.attributes))) with ⟨err, st4, evs⟩
          simp only [hpr] at hok
          cases err with
          | some e => simp at hok
          | none =>
            exact ⟨ids, scalar2, mat, ix2, not_not.mp hval, rfl, rfl, hins,
              by rw [hpr]⟩

/-- C7 counterexample: a float-valued attribute on the already-indexed
(known) field `age` neither errors nor is indexed — the upsert succeeds
and the filter index is unchanged — refuting "a non-integer value on a
known field causes the upsert to return an error". -/
theorem nonInteger_attribute_counterexample :
    (upsert ⟨3, .l2, ⟨3, .l2, []⟩, [("age", [((10 : Int), {1})])], [], [], 0⟩
        ⟨[1, 2, 3], 1, 3, [none], [some [("age", .num (.float 1))]]⟩).1 =
      .ok () ∧
    (JsonNum.float 1).asI64 = none ∧
    (upsert ⟨3, .l2, ⟨3, .l2, []⟩, [("age", [((10 : Int), {1})])], [], [], 0⟩
        ⟨[1, 2, 3], 1, 3, [none], [some [("age", .num (.float 1))]]⟩
      ).2.1.filterIndex = [("age", [((10 : Int), {1})])] := by
  exact ⟨rfl, rfl, rfl⟩

/-- C7 (amended): during upsert, a row attribute value that is not a JSON
number fails the attribute pass with an error (so a successful upsert has
only number-typed attribute values), number values not representable as
`i64` are skipped silently, and exactly the `i64`-representable values
are inserted into the filter index. -/
theorem insertAttribute_integer_only :
    (∀ (attrs : List (String × Json)) (id : Nat) (fidx : AttrLookupTable),
      ((insertAttribute attrs id fidx).1 = none ↔
        ∀ p ∈ attrs, p.2.isNum = true) ∧
      (insertAttribute attrs id fidx).2.1 =
        (indexableOf attrs).foldl (fun t q => filterUpsert t q.1 q.2 id) fidx) ∧
    (∀ (st : DBState) (args : VectorInsertArgs),
      (upsert st args).1 = .ok () →
      ∀ attr ∈ args.attributes, ∀ p ∈ attr.getD [], p.2.isNum = true) := by
  constructor
  · intro attrs id fidx
    exact ⟨insertAttribute_none_iff attrs id fidx,
      insertAttribute_filter_eq attrs id fidx⟩
  · intro st args hok attr hattr p hp
    obtain ⟨ids, scalar2, mat, ix2, hval, hgen, hmat, hins, hpr⟩ :=
      upsert_ok_decompose st args hok
    have hne : args.attributes.isEmpty = false := by
      cases hl : args.attributes with
      | nil =>
        rw [hl] at hattr
        exact absurd hattr (by simp)
      | cons b bs => rfl
    rw [hne] at hpr
    simp only [Bool.false_eq_true, if_false] at hpr
    obtain ⟨hdocs, hattrs, _⟩ := validate_empty_facts args hval
    have hattrlen : args.attributes.length = args.dataRow := by
      rcases hattrs with hh | hh
      · rw [hne] at hh
        exact absurd hh (by simp)
      · exact hh
    have hidlen : ids.length = args.dataRow :=
      genIncrIds_ok_length st.scalar args.dataRow ids scalar2 hgen
    obtain ⟨j, hj, hje⟩ := List.mem_iff_getElem.mp hattr
    have hjz : j < (ids.zip (args.docs.zip args.attributes)).length := by
      simp only [List.length_zip]
      omega
    have hj1 : j < ids.length := by omega
    have hj2 : j < args.docs.length := by omega
    have hx : (ids.zip (args.docs.zip args.attributes))[j] =
        (ids[j], args.docs[j], attr) := by
      rw [List.getElem_zip, List.getElem_zip, hje]
    have hmem := List.getElem_mem hjz
    rw [hx] at hmem
    exact processRows_ok_attrs _ _ hpr _ hmem p hp

/-- Witness for C7's amended statement: a successful upsert with one
`posInt` attribute certifies that its value passed the number check. -/
theorem insertAttribute_integer_only_witness :
    Json.isNum (Json.num (.posInt 5)) = true :=
  insertAttribute_integer_only.2 (newDatabase 3 MetricType.l2 [] [] 0)
    ⟨[1, 2, 3], 1, 3, [none], [some [("a", .num (.posInt 5))]]⟩ rfl
    (some [("a", .num (.posInt 5))]) (List.mem_singleton_self _)
    ("a", .num (.posInt 5)) (List.mem_singleton_self _)

/-! ### Filter-index membership (claim C10) -/

/-- The bitmap stored under `(field, value)`; empty when either lookup
misses. -/
def bitmapAt (tbl : AttrLookupTable) (f : String) (v : Int) : Bitmap :=
  ((lookupField tbl f).bind (fun m => lookupInner m v)).getD ∅

/-- The bitmap stored under `value` in an inner map; empty when absent. -/
def innerAt (m : InnerMap) (v : Int) : Bitmap := (lookupInner m v).getD ∅

theorem lookupInner_insertInner (m : InnerMap) (v w : Int) (id32 : Nat) :
    lookupInner (insertInner m v id32) w =
      if w = v then some (insert id32 (innerAt m v)) else lookupInner m w := by
  induction m with
  | nil =>
    by_cases hw : w = v
    · subst hw
      simp [insertInner, lookupInner, innerAt]
    · have hw2 : ¬(v = w) := fun hc => hw hc.symm
      simp [insertInner, lookupInner, innerAt, hw, hw2]
  | cons p rest ih =>
    obtain ⟨u, b⟩ := p
    by_cases hu : u = v
    · subst hu
      by_cases hw : u = w
      · subst hw
        simp [insertInner, lookupInner, innerAt]
      · have hw2 : ¬(w = u) := fun hc => hw hc.symm
        simp [insertInner, lookupInner, innerAt, hw, hw2]
    · by_cases hw : u = w
      · subst hw
        have hw2 : ¬(u = v) := hu
        have hw3 : ¬(v = u) := fun hc => hu hc.symm
        simp [insertInner, lookupInner, innerAt, hw2, hw3]
      · simp [insertInner, lookupInner, innerAt, hu, hw, ih]

theorem lookupField_filterUpsert (tbl : AttrLookupTable) (k f : String)
    (v : Int) (id : Nat) :
    lookupField (filterUpsert tbl k v id) f =
      if f = k then
        some (insertInner ((lookupField tbl k).getD []) v (id % 2 ^ 32))
      else lookupField tbl f := by
  induction tbl with
  | nil =>
    by_cases hf : f = k
    · subst hf
      simp [filterUpsert, lookupField, insertInner]
    · have hf2 : ¬(k = f) := fun hc => hf hc.symm
      simp [filterUpsert, lookupField, hf, hf2]
  | cons p rest ih =>
    obtain ⟨g, m⟩ := p
    by_cases hg : g = k
    · subst hg
      by_cases hf : g = f
      · subst hf
        simp [filterUpsert, lookupField]
      · have hf2 : ¬(f = g) := fun hc => hf hc.symm
        simp [filterUpsert, lookupField, hf, hf2]
    · by_cases hf : g = f
      · subst hf
        have hf2 : ¬(g = k) := hg
        have hf3 : ¬(k = g) := fun hc => hg hc.symm
        simp [filterUpsert, lookupField, hf2, hf3]
      · simp [filterUpsert, lookupField, hg, hf, ih]

theorem mem_bitmapAt_filterUpsert_self (tbl : AttrLookupTable) (k : String)
    (v : Int) (id : Nat) :
    id % 2 ^ 32 ∈ bitmapAt (filterUpsert tbl k v id) k v := by
  unfold bitmapAt
  rw [lookupField_filterUpsert, if_pos rfl]
  show id % 2 ^ 32 ∈ (lookupInner (insertInner ((lookupField tbl k).getD [])
    v (id % 2 ^ 32)) v).getD ∅
  rw [lookupInner_insertInner, if_pos rfl]
  exact Finset.mem_insert_self _ _

theorem mem_bitmapAt_filterUpsert_mono (tbl : AttrLookupTable)
    (k f : String) (v w : Int) (id j : Nat) (h : j ∈ bitmapAt tbl f w) :
    j ∈ bitmapAt (filterUpsert tbl k v id) f w := by
  unfold bitmapAt at h ⊢
  rw [lookupField_filterUpsert]
  by_cases hf : f = k
  · subst hf
    rw [if_pos rfl]
    cases hlf : lookupField tbl f with
    | none =>
      rw [hlf] at h
      simp at h
    | some m =>
      rw [hlf] at h
      have h2 : j ∈ (lookupInner m w).getD ∅ := h
      show j ∈ (lookupInner (insertInner m v (id % 2 ^ 32)) w).getD ∅
      rw [lookupInner_insertInner]
      by_cases hw : w = v
      · subst hw
        rw [if_pos rfl]
        refine Finset.mem_insert_of_mem ?_
        simpa [innerAt] using h2
      · rw [if_neg hw]
        exact h2
  · rw [if_neg hf]
    exact h

theorem mem_bitmapAt_foldFilter_mono (qs : List (String × Int))
    (tbl : AttrLookupTable) (id j : Nat) (f : String) (w : Int)
    (h : j ∈ bitmapAt tbl f w) :
    j ∈ bitmapAt (qs.foldl (fun t q => filterUpsert t q.1 q.2 id) tbl) f w := by
  induction qs generalizing tbl with
  | nil => simpa using h
  | cons q rest ih =>
    rw [List.foldl_cons]
    exact ih _ (mem_bitmapAt_filterUpsert_mono tbl q.1 f q.2 w id j h)

theorem mem_bitmapAt_foldFilter_self (qs : List (String × Int))
    (tbl : AttrLookupTable) (id : Nat) (q : String × Int) (hq : q ∈ qs) :
    id % 2 ^ 32 ∈
      bitmapAt (qs.foldl (fun t p => filterUpsert t p.1 p.2 id) tbl)
        q.1 q.2 := by
  induction qs generalizing tbl with
  | nil => exact absurd hq (by simp)
  | cons r rest ih =>
    rw [List.foldl_cons]
    rcases List.mem_cons.mp hq with rfl | hq2
    · exact mem_bitmapAt_foldFilter_mono rest _ id _ q.1 q.2
        (mem_bitmapAt_filterUpsert_self tbl q.1 q.2 id)
    · exact ih _ hq2

theorem insertAttribute_fst_const (attrs : List (String × Json)) (id : Nat)
    (f g : AttrLookupTable) :
    (insertAttribute attrs id f).1 = (insertAttribute attrs id g).1 := by
  induction attrs generalizing f g with
  | nil => rfl
  | cons a rest ih =>
    obtain ⟨key, v⟩ := a
    cases v
    case num n =>
      cases hn : n.asI64 with
      | some iv =>
        rcases h1 : insertAttribute rest id (filterUpsert f key iv id)
          with ⟨e1, f1, ev1⟩
        rcases h2 : insertAttribute rest id (filterUpsert g key iv id)
          with ⟨e2, f2, ev2⟩
        have heq := ih (filterUpsert f key iv id) (filterUpsert g key iv id)
        rw [h1, h2] at heq
        simp only at heq
        simp only [insertAttribute, hn, h1, h2]
        exact heq
      | none =>
        simp only [insertAttribute, hn]
        exact ih f g
    all_goals rfl

/-- The row loop stopped by a failing attribute at the row after `pre`:
the error surfaces, every document up to and including that row stays
written, every filter entry already made stays, and nothing else is
touched. -/
theorem processRows_fail_spec
    (pre : List (Nat × Option DocMap × Option (List (String × Json))))
    (post : List (Nat × Option DocMap × Option (List (String × Json))))
    (idI : Nat) (docI : Option DocMap) (attrI : Option (List (String × Json)))
    (e : String) (st : DBState)
    (hpre : ∀ x ∈ pre, (insertAttribute (x.2.2.getD []) x.1 []).1 = none)
    (hfail : (insertAttribute (attrI.getD []) idI []).1 = some e)
    (hnd : ((pre ++ [(idI, docI, attrI)]).map (fun x => be64 x.1)).Nodup) :
    ∃ st4 evs,
      processRows st (pre ++ (idI, docI, attrI) :: post) = (some e, st4, evs) ∧
      st4.vectorIndex = st.vectorIndex ∧
      (∀ k : Bytes,
        k ∉ (pre ++ [(idI, docI, attrI)]).map (fun x => be64 x.1) →
        lookupStore st4.scalar k = lookupStore st.scalar k) ∧
      (∀ x ∈ pre ++ [(idI, docI, attrI)],
        lookupStore st4.scalar (be64 x.1) =
          some (.doc (mkDoc (x.2.1.getD []) (x.2.2.getD []) x.1))) ∧
      (∀ x ∈ pre, ∀ q ∈ indexableOf (x.2.2.getD []),
        x.1 % 2 ^ 32 ∈ bitmapAt st4.filterIndex q.1 q.2) ∧
      (∀ f w j, j ∈ bitmapAt st.filterIndex f w →
        j ∈ bitmapAt st4.filterIndex f w) := by
  induction pre generalizing st with
  | nil =>
    have hne : (attrI.getD []).isEmpty = false := by
      cases hl : attrI.getD [] with
      | nil =>
        rw [hl] at hfail
        exact Option.noConfusion hfail
      | cons b bs => rfl
    rcases hia : insertAttribute (attrI.getD []) idI st.filterIndex
      with ⟨e2, f2, evs0⟩
    have hfst := insertAttribute_fst_const (attrI.getD []) idI
      st.filterIndex []
    rw [hia, hfail] at hfst
    simp only at hfst
    rw [hfst] at hia
    have hfold : f2 = (indexableOf (attrI.getD [])).foldl
        (fun t q => filterUpsert t q.1 q.2 idI) st.filterIndex := by
      have hh := insertAttribute_filter_eq (attrI.getD []) idI st.filterIndex
      rw [hia] at hh
      exact hh
    refine ⟨{ st with scalar := putStore st.scalar (be64 idI) (.doc (mkDoc (docI.getD []) (attrI.getD []) idI)), filterIndex := f2 }, .scalarPut idI :: evs0, ?_, rfl, ?_, ?_, ?_, ?_⟩
    · simp only [List.nil_append, processRows, hne, Bool.false_eq_true,
        if_false, hia]
    · intro k hk
      have hkx : be64 idI ≠ k := by
        intro hc
        exact hk (by simp [hc])
      exact lookupStore_putStore_ne st.scalar (be64 idI) k _ hkx
    · intro x hx
      have hx2 : x = (idI, docI, attrI) := by simpa using hx
      rw [hx2]
      exact lookupStore_putStore_self st.scalar (be64 idI) _
    · intro x hx
      exact absurd hx (by simp)
    · intro f w j hj
      rw [hfold]
      exact mem_bitmapAt_foldFilter_mono _ _ idI j f w hj
  | cons x pre2 ih =>
    obtain ⟨idx, docx, attrx⟩ := x
    have hx := hpre _ (List.mem_cons_self _ _)
    have hnd2 : ((pre2 ++ [(idI, docI, attrI)]).map
        (fun x => be64 x.1)).Nodup := by
      rw [List.cons_append, List.map_cons, List.nodup_cons] at hnd
      exact hnd.2
    have hhead : be64 idx ∉ (pre2 ++ [(idI, docI, attrI)]).map
        (fun x => be64 x.1) := by
      rw [List.cons_append, List.map_cons, List.nodup_cons] at hnd
      exact hnd.1
    have hpre2 : ∀ y ∈ pre2, (insertAttribute (y.2.2.getD []) y.1 []).1 =
        none := fun y hy => hpre y (List.mem_cons_of_mem _ hy)
    by_cases hemp : (attrx.getD []).isEmpty = true
    · obtain ⟨st4, evs, hrec, hvec, hpres, hdocs, hadds, hmono⟩ :=
        ih ({ st with scalar := putStore st.scalar (be64 idx) (.doc (mkDoc (docx.getD []) (attrx.getD []) idx)) }) hpre2 hnd2
      refine ⟨st4, .scalarPut idx :: evs, ?_, hvec, ?_, ?_, ?_, ?_⟩
      · simp only [List.cons_append, processRows, List.append_eq]
        rw [if_pos hemp]
        rw [hrec]
      · intro k hk
        have hk2 : k ∉ (pre2 ++ [(idI, docI, attrI)]).map
            (fun x => be64 x.1) := by
          intro hc
          apply hk
          simp only [List.cons_append, List.map_cons]
          exact List.mem_cons_of_mem _ hc
        have hkx : be64 idx ≠ k := by
          intro hc
          apply hk
          simp [List.cons_append, hc]
        rw [hpres k hk2]
        exact lookupStore_putStore_ne st.scalar (be64 idx) k _ hkx
      · intro y hy
        have hy3 : y = (idx, docx, attrx) ∨ y ∈ pre2 ∨
            y = (idI, docI, attrI) := by simpa using hy
        rcases hy3 with rfl | hy2 | rfl
        · rw [hpres (be64 idx) hhead]
          exact lookupStore_putStore_self st.scalar (be64 idx) _
        · exact hdocs y (by simp [hy2])
        · exact hdocs _ (by simp)
      · intro y hy q hq
        rcases List.mem_cons.mp hy with rfl | hy2
        · rw [List.isEmpty_iff.mp hemp] at hq
          exact absurd hq (by simp [indexableOf])
        · exact hadds y hy2 q hq
      · intro f w j hj
        exact hmono f w j hj
    · rcases hia : insertAttribute (attrx.getD []) idx st.filterIndex
        with ⟨e2, f2, evs0⟩
      have hfst := insertAttribute_fst_const (attrx.getD []) idx
        st.filterIndex []
      rw [hia, hx] at hfst
      simp only at hfst
      rw [hfst] at hia
      have hfold : f2 = (indexableOf (attrx.getD [])).foldl
          (fun t q => filterUpsert t q.1 q.2 idx) st.filterIndex := by
        have hh := insertAttribute_filter_eq (attrx.getD []) idx
          st.filterIndex
        rw [hia] at hh
        exact hh
      obtain ⟨st4, evs, hrec, hvec, hpres, hdocs, hadds, hmono⟩ :=
        ih ({ st with scalar := putStore st.scalar (be64 idx) (.doc (mkDoc (docx.getD []) (attrx.getD []) idx)), filterIndex := f2 }) hpre2 hnd2
      refine ⟨st4, .scalarPut idx :: (evs0 ++ evs), ?_, hvec, ?_, ?_, ?_, ?_⟩
      · simp only [List.cons_append, processRows, List.append_eq]
        rw [if_neg hemp, hia]
        simp only [hrec]
      · intro k hk
        have hk2 : k ∉ (pre2 ++ [(idI, docI, attrI)]).map
            (fun x => be64 x.1) := by
          intro hc
          apply hk
          simp only [List.cons_append, List.map_cons]
          exact List.mem_cons_of_mem _ hc
        have hkx : be64 idx ≠ k := by
          intro hc
          apply hk
          simp [List.cons_append, hc]
        rw [hpres k hk2]
        exact lookupStore_putStore_ne st.scalar (be64 idx) k _ hkx
      · intro y hy
        have hy3 : y = (idx, docx, attrx) ∨ y ∈ pre2 ∨
            y = (idI, docI, attrI) := by simpa using hy
        rcases hy3 with rfl | hy2 | rfl
        · rw [hpres (be64 idx) hhead]
          exact lookupStore_putStore_self st.scalar (be64 idx) _
        · exact hdocs y (by simp [hy2])
        · exact hdocs _ (by simp)
      · intro y hy q hq
        rcases List.mem_cons.mp hy with rfl | hy2
        · have hmem : idx % 2 ^ 32 ∈ bitmapAt f2 q.1 q.2 := by
            rw [hfold]
            exact mem_bitmapAt_foldFilter_self _ _ idx q hq
          exact hmono q.1 q.2 _ hmem
        · exact hadds y hy2 q hq
      · intro f w j hj
        have hmem : j ∈ bitmapAt f2 f w := by
          rw [hfold]
          exact mem_bitmapAt_foldFilter_mono _ _ idx j f w hj
        exact hmono f w j hmem

/-- C10: upsert is not row-atomic on attribute failure.  When every row
before some row is attribute-clean and that row's attribute map fails on
its first non-number value, the upsert returns that row's error, yet all
rows' vectors stay inserted in the vector index, the documents of rows 0
through the failing row stay written in the scalar store, and every
filter-index entry already made for earlier rows remains — no state is
rolled back. -/
theorem upsert_not_row_atomic (st : DBState) (args : VectorInsertArgs)
    (ids : List Nat) (scalar2 : Store) (mat : NMat) (ix2 : FlatIndex)
    (e : String)
    (pre post : List (Nat × Option DocMap × Option (List (String × Json))))
    (idI : Nat) (docI : Option DocMap) (attrI : Option (List (String × Json)))
    (hval : args.validate.1 = "")
    (hgen : genIncrIds st.scalar args.dataRow = .ok (ids, scalar2))
    (hmat : fromShapeVec args.dataRow args.dataDim args.flatData = some mat)
    (hins : FlatIndex.insert st.vectorIndex mat ids = .ok ix2)
    (hitems : ids.zip (args.docs.zip (if args.attributes.isEmpty
        then List.replicate args.dataRow (some ([] : List (String × Json)))
        else args.attributes)) = pre ++ (idI, docI, attrI) :: post)
    (hpre : ∀ x ∈ pre, (insertAttribute (x.2.2.getD []) x.1 []).1 = none)
    (hfail : (insertAttribute (attrI.getD []) idI []).1 = some e)
    (hnd : ((pre ++ [(idI, docI, attrI)]).map (fun x => be64 x.1)).Nodup) :
    ∃ st4 evs,
      upsert st args = (.error e, st4,
        .idAlloc ids :: .vectorInsert ids :: evs) ∧
      st4.vectorIndex = ix2 ∧
      (∀ x ∈ pre ++ [(idI, docI, attrI)],
        lookupStore st4.scalar (be64 x.1) =
          some (.doc (mkDoc (x.2.1.getD []) (x.2.2.getD []) x.1))) ∧
      (∀ x ∈ pre, ∀ q ∈ indexableOf (x.2.2.getD []),
        x.1 % 2 ^ 32 ∈ bitmapAt st4.filterIndex q.1 q.2) := by
  obtain ⟨st4, evs, hproc, hvec, hpres, hdocs, hadds, hmono⟩ :=
    processRows_fail_spec pre post idI docI attrI e
      { st with scalar := scalar2, vectorIndex := ix2 } hpre hfail hnd
  refine ⟨st4, evs, ?_, ?_, hdocs, hadds⟩
  · rw [upsert, if_neg (not_not_intro hval)]
    simp only [hgen, hmat, hins, hitems, hproc]
  · rw [hvec]

/-- Witness for C10: a two-row upsert whose second row carries a string
attribute errors, while the vectors of both rows, both documents and the
first row's filter entry survive. -/
theorem upsert_not_row_atomic_witness :
    ∃ st4 evs,
      upsert (newDatabase 1 MetricType.l2 [] [] 0)
          ⟨[5, 6], 2, 1, [none, none],
            [some [("age", .num (.posInt 10))], some [("bad", .str "x")]]⟩ =
        (.error "unsupported attribute type for key bad", st4,
          .idAlloc [1, 2] :: .vectorInsert [1, 2] :: evs) ∧
      st4.vectorIndex = ⟨1, .l2, [(1, [5]), (2, [6])]⟩ ∧
      (∀ x ∈ [((1 : Nat), (none : Option DocMap),
            some [("age", Json.num (.posInt 10))])] ++
          [((2 : Nat), (none : Option DocMap),
            some [("bad", Json.str "x")])],
        lookupStore st4.scalar (be64 x.1) =
          some (.doc (mkDoc (x.2.1.getD []) (x.2.2.getD []) x.1))) ∧
      (∀ x ∈ [((1 : Nat), (none : Option DocMap),
            some [("age", Json.num (.posInt 10))])],
        ∀ q ∈ indexableOf (x.2.2.getD []),
        x.1 % 2 ^ 32 ∈ bitmapAt st4.filterIndex q.1 q.2) :=
  upsert_not_row_atomic (newDatabase 1 MetricType.l2 [] [] 0)
    ⟨[5, 6], 2, 1, [none, none],
      [some [("age", .num (.posInt 10))], some [("bad", .str "x")]]⟩
    [1, 2] (putStore [] idMaxKey (.bytes (be64 2))) ⟨2, 1, [[5], [6]]⟩
    ⟨1, .l2, [(1, [5]), (2, [6])]⟩ "unsupported attribute type for key bad"
    [(1, none, some [("age", .num (.posInt 10))])] []
    2 none (some [("bad", .str "x")])
    rfl rfl rfl rfl rfl (by decide) rfl (by decide)

end VecDB
